import Mathlib

/-!
Verification of the live voice-chat turn-taking machinery of a browser chat
widget.  The source is TypeScript/React; the relevant parts are
`src/components/ChatInput.tsx` (the live-chat turn controller),
`src/hooks/useSpeechRecognition.ts` (the speech-capture wrapper) and
`src/lib/api.ts` (the backend request wrapper).

Modelling conventions:
* JavaScript strings are modelled as `List Char` (`Str`); `String.prototype.trim`,
  `toLowerCase`, `includes` and `length` are modelled on that type.  The
  whitespace class is the ASCII part of the JavaScript `\s` class.
* React state variables are modelled as fields of explicit state records.
  An effect body runs right after a commit, so its reads see the committed
  state of that render and are modelled as reads of the current state.  A
  closure created in one render but invoked later (a timer callback, an async
  turn handler) sees the `const` values captured when it was created, not the
  live state; such reads are modelled as frozen `captured*` fields or as
  event parameters recording the captured value.
* Asynchronous callback interleavings are modelled as small-step transition
  systems: a state record together with a step function over an event
  alphabet, run with `List.foldl`.
-/

/-- JavaScript strings, modelled as lists of characters. -/
abbrev Str := List Char

/-- Conversion from Lean string literals to the `Str` model. -/
def str (s : String) : Str := s.data

/-- The apostrophe character (written via its code point). -/
def apos : Char := Char.ofNat 39

/-- ASCII part of the JavaScript whitespace class `\s`
(space, tab, line feed, carriage return, vertical tab, form feed). -/
def isWsC (c : Char) : Bool :=
  c = ' ' || c = '\t' || c = '\n' || c = '\r' || c = Char.ofNat 11 || c = Char.ofNat 12

/-- ASCII letter, as in the character class of the URL regex. -/
def isAlphaC (c : Char) : Bool :=
  ('a' ≤ c && c ≤ 'z') || ('A' ≤ c && c ≤ 'Z')

/-- ASCII digit. -/
def isDigitC (c : Char) : Bool :=
  '0' ≤ c && c ≤ '9'

/-- The character class of the URL regex domain parts. -/
def isAlnumDash (c : Char) : Bool :=
  isAlphaC c || isDigitC c || c = '-'

/-- JavaScript `String.prototype.trim` (ASCII whitespace). -/
def jsTrim (l : Str) : Str :=
  ((l.dropWhile isWsC).reverse.dropWhile isWsC).reverse

/-- JavaScript `String.prototype.toLowerCase` (ASCII). -/
def jsToLower (l : Str) : Str := l.map Char.toLower

/-- Does `p` occur at the very start of `l`? -/
def prefixOf : Str → Str → Bool
  | [], _ => true
  | _ :: _, [] => false
  | a :: as, b :: bs => a = b && prefixOf as bs

/-- JavaScript `String.prototype.includes`: `g` occurs somewhere in `l`. -/
def substrOf (g : Str) : Str → Bool :=
  fun l =>
    prefixOf g l ||
      match l with
      | [] => false
      | _ :: t => substrOf g t

/-!
## Speech-capture source (`src/hooks/useSpeechRecognition.ts`)
-/

/-- State of the `useSpeechRecognition` hook. -/
structure RecogState where
  isListening : Bool
  transcript : Str
  finalTranscript : Str
deriving DecidableEq, Repr

/-- The recognizer error listener (useSpeechRecognition.ts, lines 94-103).
Returns the new hook state together with whether the event was logged with
`console.error`.  An `aborted` error clears the listening flag and is not
logged; every other error code is logged and changes nothing. -/
def handleRecError (s : RecogState) (code : Str) : RecogState × Bool :=
  (if code = str "aborted" then { s with isListening := false } else s,
   decide (code ≠ str "aborted"))

/-- `startListening` (useSpeechRecognition.ts, lines 114-124).
`engineThrows` says whether the underlying engine `start()` call would throw
(e.g. because the engine is already running).  Returns the new hook state,
whether a failure was logged, and whether an exception escaped the callback
(always `false`: the `start()` call is wrapped in try/catch). -/
def startListeningModel (s : RecogState) (engineThrows : Bool) :
    RecogState × Bool × Bool :=
  if s.isListening then (s, false, false)
  else if engineThrows then (s, true, false)
  else (s, false, false)

/-!
## Backend request wrapper (`src/lib/api.ts`)
-/

/-- The failure modes of `sendMessage`. -/
inductive SendErr where
  | noApiUrl : SendErr
  | httpError : Nat → SendErr
  | invalidFormat : SendErr
deriving DecidableEq, Repr

/-- An HTTP response from the assistant webhook: whether the status is a
success (`response.ok`), the status code, and the `output` field of the JSON
body (`none` models a missing/absent/non-string `output`, including a
malformed body). -/
structure BackendResp where
  ok : Bool
  status : Nat
  output : Option Str
deriving DecidableEq, Repr

/-- `sendMessage` (api.ts, lines 11-47), as a function of its environment.
A falsy `data.output` (missing field or empty string) throws
`Invalid response format`; a non-success status throws an HTTP error. -/
def sendMessageModel (apiUrlConfigured : Bool) (r : BackendResp) :
    Except SendErr Str :=
  if !apiUrlConfigured then .error .noApiUrl
  else if !r.ok then .error (.httpError r.status)
  else
    match r.output with
    | some o => if o ≠ [] then .ok o else .error .invalidFormat
    | none => .error .invalidFormat

/-!
## Debounced utterance finalization (`ChatInput.tsx`, lines 136-156)
-/

/-- The decision made when the live-chat debounce timer fires
(ChatInput.tsx, lines 142-152): the transcript snapshot is trimmed and
dispatched to `handleLiveChatMessage` only when it is non-empty with length
strictly greater than 2. -/
def debounceDispatch (transcript : Str) : Option Str :=
  let finalText := jsTrim transcript
  if finalText ≠ [] ∧ finalText.length > 2 then some finalText else none

/-- One live-chat transcript update: arrival time (ms) and transcript text. -/
structure Upd where
  time : Nat
  text : Str
deriving DecidableEq, Repr

/-- The debounce window of the live-chat effect (1500 ms). -/
def debounceMs : Nat := 1500

/-- Timers that actually fire for a sequence of transcript updates
(ChatInput.tsx, lines 136-156).  Each update arms a fresh `setTimeout` for
`debounceMs` holding its own snapshot; the effect cleanup cancels the armed
timer when a newer update arrives before it fires.  Returns the (time,
snapshot) pairs of the timers that reach their deadline. -/
def debounceFires : List Upd → List (Nat × Str)
  | [] => []
  | [u] => [(u.time + debounceMs, u.text)]
  | u :: v :: rest =>
    if v.time < u.time + debounceMs then debounceFires (v :: rest)
    else (u.time + debounceMs, u.text) :: debounceFires (v :: rest)

/-- The backend requests issued by the debounce machinery: a fired timer
dispatches its trimmed snapshot subject to the noise floor. -/
def debounceRequests (us : List Upd) : List (Nat × Str) :=
  (debounceFires us).filterMap fun p => (debounceDispatch p.2).map fun m => (p.1, m)

/-- Consecutive updates arrive strictly less than the debounce window apart. -/
def gapsLt : List Upd → Bool
  | [] => true
  | [_] => true
  | u :: v :: rest => decide (v.time < u.time + debounceMs) && gapsLt (v :: rest)

/-!
## URL filtering (`ChatInput.tsx`, lines 283-287)

The regex is
`(https?:\/\/[^\s]+|www\.[^\s]+|[a-zA-Z0-9-]+\.[a-zA-Z]{2,}\/[^\s]*|[a-zA-Z0-9-]+\.[a-zA-Z]{2,}[^\s]*)`,
applied with `replace(urlRegex, '')` and the global flag.  Since the
alternatives contain no whitespace and all end with a greedy `[^\s]+`/`[^\s]*`,
a successful match at a position always consumes exactly up to the next
whitespace character (or the end of the string); matching at a position only
requires the mandatory parts of one alternative.  The four `alt…` functions
below decide, alternative by alternative, whether a match begins at the head
of the given character list.
-/

/-- The list starts with a non-whitespace character (a non-empty `[^\s]+`
remainder begins here). -/
def reqNonWsHead : Str → Bool
  | [] => false
  | c :: _ => !isWsC c

/-- First regex alternative: `https?:\/\/[^\s]+` begins here, i.e. the
literal `http://` or `https://` followed by at least one non-whitespace
character. -/
def altHttp (l : Str) : Bool :=
  (prefixOf (str "http://") l && reqNonWsHead (l.drop 7)) ||
    (prefixOf (str "https://") l && reqNonWsHead (l.drop 8))

/-- Second regex alternative: `www\.[^\s]+` begins here. -/
def altWww (l : Str) : Bool :=
  prefixOf (str "www.") l && reqNonWsHead (l.drop 4)

/-- A literal dot followed by at least two letters (the `\.[a-zA-Z]{2,}`
part shared by the last two regex alternatives). -/
def dotAlphas (r : Str) : Bool :=
  match r with
  | c :: a :: b :: _ => decide (c = '.') && (isAlphaC a && isAlphaC b)
  | _ => false

/-- Fourth regex alternative: `[a-zA-Z0-9-]+\.[a-zA-Z]{2,}[^\s]*` begins
here: a non-empty maximal run of `[a-zA-Z0-9-]` (the `+` cannot backtrack
past the mandatory dot, which is not in the class), a literal dot, then at
least two letters. -/
def altDomain (l : Str) : Bool :=
  decide (l.takeWhile isAlnumDash ≠ []) && dotAlphas (l.dropWhile isAlnumDash)

/-- The list starts with a literal `/`. -/
def slashHead : Str → Bool
  | [] => false
  | c :: _ => decide (c = '/')

/-- A literal dot, then a maximal letter run of length at least two (the
`{2,}` cannot backtrack: the character after the run it yields back would be
a letter, not `/`), then a literal `/` (the `\.[a-zA-Z]{2,}\/` part of the
third regex alternative). -/
def dotAlphasSlash (r : Str) : Bool :=
  match r with
  | c :: r2 =>
    decide (c = '.') && decide ((r2.takeWhile isAlphaC).length ≥ 2) &&
      slashHead (r2.dropWhile isAlphaC)
  | [] => false

/-- Third regex alternative: `[a-zA-Z0-9-]+\.[a-zA-Z]{2,}\/[^\s]*` begins
here. -/
def altPath (l : Str) : Bool :=
  decide (l.takeWhile isAlnumDash ≠ []) && dotAlphasSlash (l.dropWhile isAlnumDash)

/-- A match of the URL regex begins at the head of `l`. -/
def urlMatchAt (l : Str) : Bool :=
  altHttp l || altWww l || altPath l || altDomain l

/-- Some suffix of `l` begins a match of the URL regex, i.e. the regex finds
a match somewhere in `l`. -/
def hasURL (l : Str) : Bool :=
  l.tails.any urlMatchAt

/-- Fuel-based worker for `stripUrls` (the fuel, always instantiated with
the length of the list, keeps the recursion structural so that the function
evaluates inside the kernel; skipping a match only shortens the list). -/
def stripUrlsGo : Nat → Str → Str
  | 0, _ => []
  | _ + 1, [] => []
  | n + 1, c :: cs =>
    if isWsC c then c :: stripUrlsGo n cs
    else if urlMatchAt (c :: cs) then
      stripUrlsGo n (cs.dropWhile fun d => !isWsC d)
    else c :: stripUrlsGo n cs

/-- `text.replace(urlRegex, '')`: scan left to right; at the first position
of each match delete up to the next whitespace character (every match of the
URL regex extends exactly that far), then continue after the deleted part. -/
def stripUrls (l : Str) : Str := stripUrlsGo l.length l

/-- Fuel-based worker for `collapseWs`. -/
def collapseWsGo : Nat → Str → Str
  | 0, _ => []
  | _ + 1, [] => []
  | n + 1, c :: cs =>
    if isWsC c then ' ' :: collapseWsGo n (cs.dropWhile isWsC)
    else c :: collapseWsGo n cs

/-- `replace(/\s+/g, ' ')`: collapse each maximal whitespace run to a single
space. -/
def collapseWs (l : Str) : Str := collapseWsGo l.length l

/-- `filterUrlsFromText` (ChatInput.tsx, lines 283-287): remove URL matches,
collapse whitespace runs to single spaces, trim. -/
def filterUrlsFromText (text : Str) : Str :=
  jsTrim (collapseWs (stripUrls text))

/-!
## The live-chat turn handler (`ChatInput.tsx`, lines 191-280)
-/

/-- The mojibake sequence appearing in two of the thinking messages: the
source file contains the literal characters U+00E2, U+20AC, U+2122 there. -/
def moj : Str := [Char.ofNat 0xE2, Char.ofNat 0x20AC, Char.ofNat 0x2122]

/-- The fixed greeting/closing phrase list (ChatInput.tsx, lines 212-218). -/
def simpleGreetings : List Str :=
  [str "hello", str "hi", str "hey", str "good morning", str "good afternoon",
   str "good evening", str "how are you",
   str "what" ++ [apos] ++ str "s up", str "greetings", str "howdy", str "yo",
   str "thanks", str "thank you", str "stop", str "cancel", str "quit",
   str "exit", str "bye", str "goodbye", str "see you later",
   str "who are you", str "what is your name", str "tell me about yourself",
   str "help", str "assist", str "support", str "can you help me",
   str "can you assist me"]

/-- `isSimpleGreeting` (ChatInput.tsx, lines 220-222): some fixed phrase is a
substring of the lowercased utterance and the utterance is shorter than 20
characters. -/
def isSimpleGreeting (messageText : Str) : Bool :=
  simpleGreetings.any fun greeting =>
    substrOf greeting (jsToLower messageText) && decide (messageText.length < 20)

/-- The fixed set of initial filler acknowledgment phrases
(ChatInput.tsx, lines 225-236), including the literal mojibake of the
source file. -/
def thinkingMessages : List Str :=
  [str "Let me think about that for a moment... I want to give you the most thoughtful response I can.",
   str "Hmm... I" ++ [apos] ++ str "m carefully going through everything you just said... making sure I don" ++ [apos] ++ str "t miss anything important.",
   str "Hold on a second... I" ++ [apos] ++ str "m searching my knowledge to find something that truly helps you.",
   str "Just a little moment please... I" ++ [apos] ++ str "m organizing my thoughts before giving you the best answer I can.",
   str "I" ++ [apos] ++ str "m still thinking about that... it" ++ [apos] ++ str "s a great question, and I want to be sure I understand it fully.",
   str "Let me look into that for you... this might take a few more seconds, but I" ++ [apos] ++ str "m on it.",
   str "I" ++ moj ++ str "m reflecting on what you just said... trying to connect the dots before I speak.",
   str "Give me just a bit more time... I want to be accurate, clear, and truly helpful in my reply.",
   str "Alright... I" ++ moj ++ str "m close to finishing your answer... just reviewing the last piece of information.",
   str "Thanks for your patience... I" ++ [apos] ++ str "m working carefully so I can support you the best way possible."]

/-- The fixed apology phrase (ChatInput.tsx, line 273). -/
def apologyText : Str :=
  str "Sorry, I couldn" ++ [apos] ++ str "t process your message. Please try again."

/-- Observable actions of the THINKING phase of `handleLiveChatMessage`. -/
inductive TurnAction where
  | speakReq : Str → TurnAction
  | startFillerLoop : TurnAction
  | backendSend : Str → TurnAction
deriving DecidableEq, Repr

/-- The THINKING-phase behaviour of `handleLiveChatMessage`
(ChatInput.tsx, lines 211-251): a non-greeting utterance first plays the
filler acknowledgment phrase picked by the random index `idx`, then starts
the recurring filler loop; a greeting skips both.  In either case exactly
one backend request is issued. -/
def thinkingPhase (messageText : Str) (idx : Nat) : List TurnAction :=
  if isSimpleGreeting messageText then
    [TurnAction.backendSend messageText]
  else
    [TurnAction.speakReq (thinkingMessages.getD idx []),
     TurnAction.startFillerLoop,
     TurnAction.backendSend messageText]

/-- Environment of one live-chat turn: the outcome of the backend request
(`some reply` or `none` for a network error, non-success status or malformed
body) and whether a given synthesis request succeeds. -/
structure TurnEnv where
  backendResult : Option Str
  ttsOk : Str → Bool

/-- Observable outcome of one run of `handleLiveChatMessage`. -/
structure TurnOutcome where
  ttsRequests : List Str
  fillerStoppedAtEnd : Bool
  processingAfter : Bool
  playingAfter : Bool
  threw : Bool
deriving DecidableEq, Repr

/-- The synthesis requests issued by one `speakText(text)` call
(ChatInput.tsx, lines 288-346): text that is empty after trimming is
rejected before any network call; otherwise one request is issued.  A failed
request or playback error is caught inside `speakText` and never rethrown. -/
def speakTextReqs (text : Str) : List Str :=
  if jsTrim text = [] then [] else [text]

/-- One full run of `handleLiveChatMessage(messageText)`
(ChatInput.tsx, lines 191-280), with the filler-loop timing abstracted away:
the try block optionally plays a filler and starts the loop, then awaits the
backend; on a reply the loop is stopped and the URL-filtered reply is
synthesized; on a backend failure the catch block stops the loop and
synthesizes the fixed apology; the finally block stops the loop again and
clears the processing/playing flags.  No branch rethrows. -/
def runTurn (messageText : Str) (idx : Nat) (env : TurnEnv) : TurnOutcome :=
  let pre : List Str :=
    if isSimpleGreeting messageText then []
    else speakTextReqs (thinkingMessages.getD idx [])
  match env.backendResult with
  | some reply =>
    { ttsRequests := pre ++ speakTextReqs (filterUrlsFromText reply),
      fillerStoppedAtEnd := true, processingAfter := false,
      playingAfter := false, threw := false }
  | none =>
    { ttsRequests := pre ++ speakTextReqs apologyText,
      fillerStoppedAtEnd := true, processingAfter := false,
      playingAfter := false, threw := false }

/-- The claim statement of C5 at one concrete input: if the backend request
fails or the synthesis of the reply fails, the apology is synthesized, the
filler loop is stopped, the flags are cleared and nothing is thrown. -/
def claimC5At (messageText : Str) (idx : Nat) (env : TurnEnv) : Prop :=
  (env.backendResult = none ∨
      ∃ reply, env.backendResult = some reply ∧
        env.ttsOk (filterUrlsFromText reply) = false) →
    apologyText ∈ (runTurn messageText idx env).ttsRequests ∧
    (runTurn messageText idx env).fillerStoppedAtEnd = true ∧
    (runTurn messageText idx env).processingAfter = false ∧
    (runTurn messageText idx env).playingAfter = false ∧
    (runTurn messageText idx env).threw = false

/-!
## The recurring filler ("thinking") loop (`ChatInput.tsx`, lines 348-436)

`startContinuousThinking` invokes `playRandomThinkingSound`, whose opening
guard reads `isProcessingVoice && isLiveChatMode`, and whose completion,
error and fetch-failure callbacks re-check the same flags before arming a new
`setTimeout`.  These are plain per-render closures: `isProcessingVoice` and
`isLiveChatMode` are `useState` constants of the render whose debounce effect
armed the turn's timer, so every read inside the loop sees the values
captured at that render, not the live component state.  Because the debounce
effect only arms its timer when `!isProcessingVoice` holds (ChatInput.tsx,
line 137), the captured processing flag of a turn is always `false`.
`stopContinuousThinking` likewise pauses the audio referenced by the captured
`thinkingAudio` binding; modelling the turn events as leaving the loop state
untouched is conservative (the theorem does not rely on them stopping
anything).  The subsystem below models one turn: the captured flags, the
filler audio element, the armed filler timeouts, and the progress of
`handleLiveChatMessage` from its `await sendMessage` to its `finally` block.
-/

/-- Progress of `handleLiveChatMessage` while the filler loop may run. -/
inductive TurnPhase where
  /-- Between `startContinuousThinking()` and the resolution of
  `await sendMessage(...)`. -/
  | awaitingBackend : TurnPhase
  /-- Between the resolution (or rejection) of the backend request and the
  `finally` block: the reply is logged, the 500 ms pause and the reply (or
  apology) synthesis happen here, with `isProcessingVoice` still `true`. -/
  | finishing : TurnPhase
  /-- After the `finally` block. -/
  | done : TurnPhase
deriving DecidableEq, Repr

/-- State of the filler-loop subsystem: the `isProcessingVoice` and
`isLiveChatMode` values captured by the turn's render closure (constant for
the whole turn — every loop callback belongs to the same closure), whether a
filler audio element is in a playing state, the number of armed filler
`setTimeout`s, the turn phase, plus three ghost fields: whether the turn has
left the THINKING phase (reply arrived, request failed, barge-in, or
live-chat exit), how many filler playbacks started in total, and how many
started after that point. -/
structure FillerState where
  capturedProcessing : Bool
  capturedLive : Bool
  thinkingPlaying : Bool
  pendingTimeouts : Nat
  turn : TurnPhase
  leftThinking : Bool
  fillerStarts : Nat
  lateFillerStarts : Nat
deriving DecidableEq, Repr

/-- Events of the filler-loop subsystem. -/
inductive FillerEv where
  /-- `startContinuousThinking()` invokes `playRandomThinkingSound()`
  directly (ChatInput.tsx, line 427); the parameter says whether its
  text-to-speech fetch would succeed. -/
  | loopInvoked : Bool → FillerEv
  /-- An armed filler `setTimeout` fires and runs
  `playRandomThinkingSound`; the parameter says whether its
  text-to-speech fetch would succeed. -/
  | timerFires : Bool → FillerEv
  /-- The playing filler audio ends (`audio.onended`). -/
  | fillerEnds : FillerEv
  /-- The playing filler audio errors (`audio.onerror`). -/
  | fillerErrors : FillerEv
  /-- `await sendMessage` resolves: `stopContinuousThinking()` runs and the
  turn moves on towards its `finally` block. -/
  | replyArrives : FillerEv
  /-- `await sendMessage` rejects: the catch block calls
  `stopContinuousThinking()` and speaks the apology. -/
  | requestFails : FillerEv
  /-- The `finally` block runs: `stopContinuousThinking()`,
  `setIsProcessingVoice(false)`, `setIsPlayingResponse(false)` (live
  state writes, not read by the loop's closure). -/
  | finallyRuns : FillerEv
  /-- Barge-in (ChatInput.tsx, lines 159-180): listening activity while
  `isPlayingResponse`. -/
  | bargeIn : FillerEv
  /-- `handleLiveChatToggle` exits live-chat mode
  (ChatInput.tsx, lines 459-489). -/
  | exitLive : FillerEv
deriving DecidableEq, Repr

/-- One invocation of `playRandomThinkingSound` (ChatInput.tsx, lines
363-424): the opening guard `!isProcessingVoice || !isLiveChatMode` reads the
captured flags and returns unless both hold; otherwise a successful fetch
starts a filler playback, and a failed fetch's catch block re-checks the same
captured flags before arming a retry `setTimeout`. -/
def playFiller (s : FillerState) (fetchOk : Bool) : FillerState :=
  if s.capturedProcessing && s.capturedLive then
    if fetchOk then
      { s with thinkingPlaying := true,
               fillerStarts := s.fillerStarts + 1,
               lateFillerStarts :=
                 s.lateFillerStarts + (if s.leftThinking then 1 else 0) }
    else
      { s with pendingTimeouts := s.pendingTimeouts + 1 }
  else s

/-- One step of the filler-loop subsystem.  The turn events (reply, failure,
`finally`, barge-in, live-chat exit) call `stopContinuousThinking`, which
pauses the audio referenced by the closure's captured `thinkingAudio`
binding; leaving the loop state untouched on those events is the
conservative choice — the claim is proved without crediting them with
stopping anything. -/
def fillerStep (s : FillerState) : FillerEv → FillerState
  | .loopInvoked fetchOk => playFiller s fetchOk
  | .timerFires fetchOk =>
    if s.pendingTimeouts = 0 then s
    else playFiller { s with pendingTimeouts := s.pendingTimeouts - 1 } fetchOk
  | .fillerEnds =>
    if s.thinkingPlaying then
      let s2 := { s with thinkingPlaying := false }
      if s2.capturedProcessing && s2.capturedLive then
        { s2 with pendingTimeouts := s2.pendingTimeouts + 1 }
      else s2
    else s
  | .fillerErrors =>
    if s.thinkingPlaying then
      let s2 := { s with thinkingPlaying := false }
      if s2.capturedProcessing && s2.capturedLive then
        { s2 with pendingTimeouts := s2.pendingTimeouts + 1 }
      else s2
    else s
  | .replyArrives =>
    if s.turn = .awaitingBackend then
      { s with turn := .finishing, leftThinking := true }
    else s
  | .requestFails =>
    if s.turn = .awaitingBackend then
      { s with turn := .finishing, leftThinking := true }
    else s
  | .finallyRuns =>
    if s.turn = .finishing then { s with turn := .done } else s
  | .bargeIn => { s with leftThinking := true }
  | .exitLive => { s with leftThinking := true }

/-- Run the filler-loop subsystem over a list of events. -/
def fillerRun (s : FillerState) (evs : List FillerEv) : FillerState :=
  evs.foldl fillerStep s

/-- The filler-subsystem state when a non-greeting turn reaches
`startContinuousThinking()` (ChatInput.tsx, line 246, the only call site):
that call sits inside `handleLiveChatMessage`, invoked only from the
debounce effect's timeout (line 148), and the effect body runs only in
renders satisfying `isLiveChatMode && ... && !isProcessingVoice` (line 137).
The timeout closure and every function it references are that render's, so
the captured processing flag is `false` and the captured live-chat flag is
`true` for the entire turn (the `setIsProcessingVoice(true)` at line 207 is
a live write that no loop closure reads).  No filler audio exists and no
filler timeout is armed: `thinkingAudio` is written to a non-`null` value
only at line 386, behind the loop's guard. -/
def fillerInit : FillerState :=
  { capturedProcessing := false, capturedLive := true,
    thinkingPlaying := false, pendingTimeouts := 0,
    turn := .awaitingBackend,
    leftThinking := false, fillerStarts := 0, lateFillerStarts := 0 }

/-!
## Response-channel playback (`speakText`, ChatInput.tsx, lines 288-346)

`speakText` is a plain per-render closure: the `currentAudio` it pauses at
call entry (line 298) is the `useState` constant captured at its defining
render, not the live reference.  It then awaits the synthesis fetch, and
only after the fetch resolves creates the new `Audio`, stores it in the live
`currentAudio` (via `setCurrentAudio`) and plays it; the completion and
error handlers write the live state.  In particular the two sequential
`speakText` calls of one turn (filler acknowledgment, then reply) come from
the same render closure and both pause the same pre-turn captured reference.
The event system below tracks the set of response-channel audio elements in
a playing state, the live `currentAudio` reference, the in-flight synthesis
fetches, and the revoked object URLs; each call event carries the audio
reference its closure captured.
-/

/-- State of the response-audio subsystem.  Audio elements are identified by
the order of their creation. -/
structure SpeakState where
  currentAudio : Option Nat
  playing : List Nat
  pendingFetches : List Str
  nextId : Nat
  revoked : List Nat
deriving DecidableEq, Repr

/-- Events of the response-audio subsystem. -/
inductive SpeakEv where
  /-- `speakText(text)` is called; the second argument is the audio
  reference held by the `currentAudio` binding captured at the call's
  defining render.  Empty-after-trim text returns before the fetch;
  otherwise the captured reference — not necessarily the audio currently
  playing — is paused and rewound and a synthesis fetch is issued. -/
  | call : Str → Option Nat → SpeakEv
  /-- The `k`-th in-flight fetch resolves: the audio element is created,
  stored in the live `currentAudio`, and played. -/
  | fetchResolves : Nat → SpeakEv
  /-- The `k`-th in-flight fetch rejects or returns a non-success status:
  caught inside `speakText`, nothing is played. -/
  | fetchRejects : Nat → SpeakEv
  /-- `audio.onended` fires for audio `a`: the object URL is revoked and
  the live `currentAudio` is cleared. -/
  | ended : Nat → SpeakEv
  /-- `audio.onerror` fires for audio `a`: same cleanup as `onended`. -/
  | errored : Nat → SpeakEv
deriving DecidableEq, Repr

/-- One step of the response-audio subsystem. -/
def speakStep (s : SpeakState) : SpeakEv → SpeakState
  | .call text captured =>
    if jsTrim text = [] then s
    else
      { s with
        playing := match captured with
                   | some a => s.playing.erase a
                   | none => s.playing,
        pendingFetches := s.pendingFetches ++ [text] }
  | .fetchResolves k =>
    if k < s.pendingFetches.length then
      { s with
        pendingFetches := s.pendingFetches.eraseIdx k,
        currentAudio := some s.nextId,
        playing := s.nextId :: s.playing,
        nextId := s.nextId + 1 }
    else s
  | .fetchRejects k =>
    if k < s.pendingFetches.length then
      { s with pendingFetches := s.pendingFetches.eraseIdx k }
    else s
  | .ended a =>
    if a ∈ s.playing || s.currentAudio = some a then
      { s with playing := s.playing.erase a, currentAudio := none,
               revoked := a :: s.revoked }
    else s
  | .errored a =>
    if a ∈ s.playing || s.currentAudio = some a then
      { s with playing := s.playing.erase a, currentAudio := none,
               revoked := a :: s.revoked }
    else s

/-- Run the response-audio subsystem over a list of events. -/
def speakRun (evs : List SpeakEv) : SpeakState :=
  evs.foldl speakStep
    { currentAudio := none, playing := [], pendingFetches := [],
      nextId := 0, revoked := [] }

/-- The invariant part of claim C8: at no point are two response-channel
audios simultaneously in a playing state, for any interleaving of calls,
fetch completions and playback callbacks. -/
def claimC8Stated : Prop :=
  ∀ evs : List SpeakEv, (speakRun evs).playing.length ≤ 1

/-- A sequential fresh-closure `speakText` discipline: each call is
immediately followed by the resolution (and possibly the completion) or
rejection of its own fetch before the next call begins. -/
inductive SeqOutcome where
  | resolveThenEnd : SeqOutcome
  | resolveNoEnd : SeqOutcome
  | reject : SeqOutcome
deriving DecidableEq, Repr

/-- The events of one sequential `speakText` call whose closure captured the
reference `captured`. -/
def seqEvents (item : Str × SeqOutcome) (nextId : Nat) (captured : Option Nat) :
    List SpeakEv :=
  match item.2 with
  | .resolveThenEnd => [.call item.1 captured, .fetchResolves 0, .ended nextId]
  | .resolveNoEnd => [.call item.1 captured, .fetchResolves 0]
  | .reject => [.call item.1 captured, .fetchRejects 0]

/-- Run a sequence of non-overlapping `speakText` calls under the
fresh-closure discipline: each call's closure captured the live
`currentAudio` as it stands when the call begins (a render committed between
calls, with no intervening audio events).  The turn handler violates this
discipline — its two calls share one render's captured reference. -/
def seqRun (items : List (Str × SeqOutcome)) : SpeakState :=
  items.foldl
    (fun s item => (seqEvents item s.nextId s.currentAudio).foldl speakStep s)
    { currentAudio := none, playing := [], pendingFetches := [],
      nextId := 0, revoked := [] }

/-!
## Barge-in (`ChatInput.tsx`, lines 159-180)
-/

/-- An HTML audio element, reduced to the fields the effect touches. -/
structure AudioRef where
  paused : Bool
  currentTime : Nat
deriving DecidableEq, Repr

/-- The live-chat component state touched by the voice-interruption effect. -/
structure LiveUI where
  isLiveChatMode : Bool
  isListening : Bool
  isPlayingResponse : Bool
  isProcessingVoice : Bool
  currentAudio : Option AudioRef
  thinkingAudio : Option AudioRef
  transcript : Str
  liveChatTranscript : Str
deriving DecidableEq, Repr

/-- The voice-interruption effect (ChatInput.tsx, lines 159-180), run as one
synchronous block when its condition
`isLiveChatMode && isListening && isPlayingResponse` holds: pause and rewind
the response audio and clear its reference, stop the filler audio
(`stopContinuousThinking`), clear both flags, and reset both transcripts.
The second component returns the response audio as the effect leaves it. -/
def interruptionEffect (s : LiveUI) : LiveUI × Option AudioRef :=
  if s.isLiveChatMode && s.isListening && s.isPlayingResponse then
    ({ s with
        currentAudio := none,
        thinkingAudio := none,
        isPlayingResponse := false,
        isProcessingVoice := false,
        transcript := [],
        liveChatTranscript := [] },
     s.currentAudio.map fun a => { a with paused := true, currentTime := 0 })
  else (s, s.currentAudio)

/-- Every character of the list is non-whitespace. -/
def allNonWs (l : Str) : Bool := l.all fun c => !isWsC c

/-- The list is empty or starts with a whitespace character. -/
def wsHeadedB : Str → Bool
  | [] => true
  | c :: _ => isWsC c

/-- Every character of the list is whitespace. -/
def allWs (l : Str) : Bool := l.all isWsC

/-- Concrete event list refuting the invariant part of claim C8, tracing the
two sequential `speakText` calls of one turn (filler acknowledgment, then
reply): both calls come from the same render closure, whose captured
`currentAudio` is the pre-turn `null`, so the second call pauses nothing —
after both fetches resolve, the acknowledgment audio and the reply audio are
in a playing state at the same time. -/
def badSpeakEvs : List SpeakEv :=
  [.call (str "a") none, .fetchResolves 0,
   .call (str "b") none, .fetchResolves 0]

/-- Invariant of the response-audio subsystem under non-overlapping
`speakText` calls: no fetch is pending between calls, at most the current
audio is playing, and all known audio ids are below the allocation
counter. -/
def SpeakInv (s : SpeakState) : Prop :=
  s.pendingFetches = [] ∧
  (s.playing = [] ∨ ∃ a, s.playing = [a] ∧ s.currentAudio = some a) ∧
  (∀ a, s.currentAudio = some a → a < s.nextId) ∧
  (∀ a ∈ s.playing, a < s.nextId)

/-!
## Theorems
-/

/-- C3: when the debounce timer fires, no request is issued for an utterance
whose trimmed text has length at most 2; a dispatch happens exactly for
trimmed length strictly greater than 2, and it carries the trimmed text. -/
theorem claimC3_theorem (t : Str) :
    ((jsTrim t).length ≤ 2 → debounceDispatch t = none) ∧
    (∀ m, debounceDispatch t = some m → m = jsTrim t ∧ m.length > 2) := by
  constructor
  · intro h
    unfold debounceDispatch
    rw [if_neg]
    rintro ⟨-, h2⟩
    omega
  · intro m hm
    unfold debounceDispatch at hm
    by_cases hc : jsTrim t ≠ [] ∧ (jsTrim t).length > 2
    · rw [if_pos hc] at hm
      cases hm
      exact ⟨rfl, hc.2⟩
    · rw [if_neg hc] at hm
      cases hm

/-- Witness for C3 at the concrete utterance `" a "`. -/
theorem claimC3_witness : debounceDispatch (str "  a ") = none :=
  (claimC3_theorem (str "  a ")).1 (by decide)

/-- C10: `sendMessage` only resolves with a non-empty output string; a
success status with a missing or empty `output` field is rejected with the
`Invalid response format` error, just as a non-success status is rejected. -/
theorem claimC10_theorem (r : BackendResp) :
    (∀ cfg s, sendMessageModel cfg r = .ok s →
      s ≠ [] ∧ r.ok = true ∧ r.output = some s) ∧
    (r.ok = true → (r.output = none ∨ r.output = some []) →
      sendMessageModel true r = .error .invalidFormat) ∧
    (r.ok = false → sendMessageModel true r = .error (.httpError r.status)) := by
  refine ⟨?_, ?_, ?_⟩
  · intro cfg s h
    cases cfg with
    | false => simp [sendMessageModel] at h
    | true =>
      cases hok : r.ok with
      | false => simp [sendMessageModel, hok] at h
      | true =>
        cases ho : r.output with
        | none => simp [sendMessageModel, hok, ho] at h
        | some o =>
          by_cases hne : o = []
          · simp [sendMessageModel, hok, ho, hne] at h
          · simp [sendMessageModel, hok, ho, hne] at h
            exact ⟨h ▸ hne, rfl, by rw [h]⟩
  · intro hok hout
    unfold sendMessageModel
    rcases hout with h | h <;> simp [hok, h]
  · intro hok
    unfold sendMessageModel
    simp [hok]

/-- Witness for C10: a success response whose body is the well-formed but
empty `output` is rejected as invalid. -/
theorem claimC10_witness :
    sendMessageModel true { ok := true, status := 200, output := some [] } =
      .error .invalidFormat :=
  (claimC10_theorem _).2.1 rfl (Or.inr rfl)

/-- C9: an `aborted` recognizer error clears the listening flag and is not
logged; any other error code is logged and leaves the hook state (listening
flag and transcripts) unchanged; `startListening` never lets a failed engine
`start()` escape: when the flag is already set no start is attempted, and an
engine throw is caught, logged, and changes nothing. -/
theorem claimC9_theorem (s : RecogState) (code : Str)
    (hc : code ≠ str "aborted") (eng : Bool) :
    handleRecError s (str "aborted") = ({ s with isListening := false }, false) ∧
    handleRecError s code = (s, true) ∧
    (s.isListening = true → startListeningModel s eng = (s, false, false)) ∧
    (s.isListening = false → startListeningModel s eng = (s, eng, false)) := by
  refine ⟨?_, ?_, ?_, ?_⟩
  · unfold handleRecError
    simp
  · unfold handleRecError
    simp [hc]
  · intro h
    unfold startListeningModel
    simp [h]
  · intro h
    unfold startListeningModel
    cases eng <;> simp [h]

/-- Witness for C9 at the concrete error code `no-speech` with a throwing
engine start. -/
theorem claimC9_witness :
    handleRecError { isListening := true, transcript := str "go", finalTranscript := [] }
        (str "no-speech") =
      ({ isListening := true, transcript := str "go", finalTranscript := [] }, true) ∧
    startListeningModel
        { isListening := false, transcript := str "go", finalTranscript := [] } true =
      ({ isListening := false, transcript := str "go", finalTranscript := [] }, true, false) :=
  ⟨(claimC9_theorem _ (str "no-speech") (by decide) true).2.1,
   (claimC9_theorem { isListening := false, transcript := str "go", finalTranscript := [] }
      (str "no-speech") (by decide) true).2.2.2 rfl⟩

/-- C4: when listening activity is detected in live-chat mode while a
response is playing, the interruption effect (one synchronous block) pauses
and rewinds the response audio, clears its reference, stops the filler
audio, clears the processing and playing flags, resets both transcripts, and
leaves the system listening. -/
theorem claimC4_theorem (s : LiveUI) (h1 : s.isLiveChatMode = true)
    (h2 : s.isListening = true) (h3 : s.isPlayingResponse = true) :
    (interruptionEffect s).1.currentAudio = none ∧
    (∀ a, s.currentAudio = some a →
      (interruptionEffect s).2 = some { a with paused := true, currentTime := 0 }) ∧
    (interruptionEffect s).1.thinkingAudio = none ∧
    (interruptionEffect s).1.isPlayingResponse = false ∧
    (interruptionEffect s).1.isProcessingVoice = false ∧
    (interruptionEffect s).1.transcript = [] ∧
    (interruptionEffect s).1.liveChatTranscript = [] ∧
    (interruptionEffect s).1.isListening = true := by
  unfold interruptionEffect
  rw [if_pos (by rw [h1, h2, h3]; rfl)]
  refine ⟨rfl, ?_, rfl, rfl, rfl, rfl, rfl, h2⟩
  intro a ha
  rw [ha]
  rfl

/-- Witness for C4 at a concrete barge-in state. -/
theorem claimC4_witness :
    (interruptionEffect
        { isLiveChatMode := true, isListening := true, isPlayingResponse := true,
          isProcessingVoice := true,
          currentAudio := some { paused := false, currentTime := 7 },
          thinkingAudio := none, transcript := str "so", liveChatTranscript := str "so" }).2 =
      some { paused := true, currentTime := 0 } :=
  (claimC4_theorem _ rfl rfl rfl).2.1 _ rfl

/-- Stepping a dead-loop state (captured processing flag `false`, no filler
playing, no filler timeout armed) preserves all of that and starts no filler
playback. -/
theorem fillerStep_dead (s : FillerState) (e : FillerEv)
    (h1 : s.capturedProcessing = false) (h2 : s.thinkingPlaying = false)
    (h3 : s.pendingTimeouts = 0) :
    (fillerStep s e).capturedProcessing = false ∧
    (fillerStep s e).thinkingPlaying = false ∧
    (fillerStep s e).pendingTimeouts = 0 ∧
    (fillerStep s e).fillerStarts = s.fillerStarts ∧
    (fillerStep s e).lateFillerStarts = s.lateFillerStarts := by
  cases e <;>
    simp only [fillerStep, playFiller, h1, h2, h3] <;>
    · repeat' split
      all_goals simp_all

/-- C1: once the turn leaves the THINKING phase (reply, failure, barge-in,
or live-chat exit), no further filler audio playback is scheduled or
started, any filler audio playing is stopped, and no `setTimeout` armed by
the filler loop leads to another playback, for every interleaving of
completion, error and fetch-failure callbacks.  This holds because the
opening guard of `playRandomThinkingSound` reads the `isProcessingVoice`
captured by the turn's render closure, which is `false`: for every
interleaving of the callbacks, no filler playback ever starts
(`fillerStarts = 0`, hence in particular `lateFillerStarts = 0` after
leaving THINKING), no filler `setTimeout` is ever armed, and no filler audio
is ever in a playing state. -/
theorem claimC1_theorem (evs : List FillerEv) :
    (fillerRun fillerInit evs).lateFillerStarts = 0 ∧
    (fillerRun fillerInit evs).fillerStarts = 0 ∧
    (fillerRun fillerInit evs).pendingTimeouts = 0 ∧
    (fillerRun fillerInit evs).thinkingPlaying = false := by
  suffices h : ∀ s : FillerState, s.capturedProcessing = false →
      s.thinkingPlaying = false → s.pendingTimeouts = 0 →
      (fillerRun s evs).lateFillerStarts = s.lateFillerStarts ∧
      (fillerRun s evs).fillerStarts = s.fillerStarts ∧
      (fillerRun s evs).pendingTimeouts = 0 ∧
      (fillerRun s evs).thinkingPlaying = false by
    exact h fillerInit rfl rfl rfl
  induction evs with
  | nil =>
    intro s h1 h2 h3
    exact ⟨rfl, rfl, h3, h2⟩
  | cons e evs ih =>
    intro s h1 h2 h3
    obtain ⟨g1, g2, g3, g4, g5⟩ := fillerStep_dead s e h1 h2 h3
    obtain ⟨r1, r2, r3, r4⟩ := ih (fillerStep s e) g1 g2 g3
    exact ⟨r1.trans g5, r2.trans g4, r3, r4⟩

/-- One non-overlapping fresh-closure `speakText` call (its captured
reference is the live `currentAudio` at call time) preserves the
response-audio invariant. -/
theorem seqEvents_inv (s : SpeakState) (item : Str × SeqOutcome)
    (h : SpeakInv s) :
    SpeakInv ((seqEvents item s.nextId s.currentAudio).foldl speakStep s) := by
  obtain ⟨hp, hpl, hca, hpa⟩ := h
  obtain ⟨t, out⟩ := item
  by_cases ht : jsTrim t = []
  · have hcall : speakStep s (.call t s.currentAudio) = s := by
      simp [speakStep, ht]
    have hres : speakStep s (.fetchResolves 0) = s := by
      simp [speakStep, hp]
    have hrej : speakStep s (.fetchRejects 0) = s := by
      simp [speakStep, hp]
    have hend : speakStep s (.ended s.nextId) = s := by
      have h1 : s.nextId ∉ s.playing := fun hm => absurd (hpa _ hm) (by omega)
      have h2 : s.currentAudio ≠ some s.nextId := fun hc =>
        absurd (hca _ hc) (by omega)
      simp [speakStep, h1, h2]
    cases out <;>
      simp only [seqEvents, List.foldl_cons, List.foldl_nil,
        hcall, hres, hrej, hend] <;>
      exact ⟨hp, hpl, hca, hpa⟩
  · have hplay : (match s.currentAudio with
        | some a => s.playing.erase a
        | none => s.playing) = [] := by
      rcases hpl with h0 | ⟨a, ha, hc⟩
      · cases s.currentAudio <;> simp [h0]
      · rw [hc, ha]
        show [a].erase a = []
        rw [List.erase_cons_head]
    have hcall : speakStep s (.call t s.currentAudio) =
        { s with playing := [], pendingFetches := s.pendingFetches ++ [t] } := by
      simp [speakStep, ht, hplay]
    have hp1 : (s.pendingFetches ++ [t]) = [t] := by rw [hp]; rfl
    cases out with
    | resolveThenEnd =>
      simp only [seqEvents, List.foldl_cons, List.foldl_nil, hcall]
      have hres : speakStep
          { s with playing := [], pendingFetches := s.pendingFetches ++ [t] }
            (.fetchResolves 0) =
          { s with playing := [s.nextId], pendingFetches := [],
                   currentAudio := some s.nextId, nextId := s.nextId + 1 } := by
        simp [speakStep, hp1, List.eraseIdx]
      rw [hres]
      have hend : speakStep
          { s with playing := [s.nextId], pendingFetches := [],
                   currentAudio := some s.nextId, nextId := s.nextId + 1 }
            (.ended s.nextId) =
          { s with playing := [], pendingFetches := [], currentAudio := none,
                   nextId := s.nextId + 1, revoked := s.nextId :: s.revoked } := by
        simp [speakStep, List.erase_cons_head]
      rw [hend]
      exact ⟨rfl, Or.inl rfl, by simp, by simp⟩
    | resolveNoEnd =>
      simp only [seqEvents, List.foldl_cons, List.foldl_nil, hcall]
      have hres : speakStep
          { s with playing := [], pendingFetches := s.pendingFetches ++ [t] }
            (.fetchResolves 0) =
          { s with playing := [s.nextId], pendingFetches := [],
                   currentAudio := some s.nextId, nextId := s.nextId + 1 } := by
        simp [speakStep, hp1, List.eraseIdx]
      rw [hres]
      refine ⟨rfl, Or.inr ⟨s.nextId, rfl, rfl⟩, ?_, ?_⟩
      · intro a ha
        simp only [Option.some.injEq] at ha
        show a < s.nextId + 1
        omega
      · intro a ha
        simp only [List.mem_singleton] at ha
        show a < s.nextId + 1
        omega
    | reject =>
      simp only [seqEvents, List.foldl_cons, List.foldl_nil, hcall]
      have hrej : speakStep
          { s with playing := [], pendingFetches := s.pendingFetches ++ [t] }
            (.fetchRejects 0) =
          { s with playing := [], pendingFetches := [] } := by
        simp [speakStep, hp1, List.eraseIdx]
      rw [hrej]
      exact ⟨rfl, Or.inl rfl, hca, by simp⟩

/-- The response-audio invariant holds after any sequence of non-overlapping
`speakText` calls. -/
theorem seqRun_inv (items : List (Str × SeqOutcome)) : SpeakInv (seqRun items) := by
  suffices h : ∀ s, SpeakInv s →
      SpeakInv (items.foldl
        (fun s item => (seqEvents item s.nextId s.currentAudio).foldl speakStep s) s) by
    refine h _ ⟨rfl, Or.inl rfl, ?_, ?_⟩
    · intro a ha
      simp at ha
    · intro a ha
      simp at ha
  induction items with
  | nil => intro s hs; exact hs
  | cons item items ih =>
    intro s hs
    exact ih _ (seqEvents_inv s item hs)

/-- C8 (amended): a `speakText` call with text that is empty after trimming
changes nothing (no synthesis request); a call with non-empty text issues
exactly one synthesis request, creates no audio yet, and pauses the audio
referenced by the `currentAudio` binding captured at its defining render —
not necessarily the audio currently playing, so a call whose closure
captured no audio pauses nothing; playback completion and playback error
clear the current-audio reference, remove the audio from the playing set and
revoke its object URL; and under the sequential fresh-closure discipline
(each call's captured reference is the live current audio and its fetch
settles before the next call) at most one response audio is ever playing.
(The two calls of one turn share one render's stale captured reference, so
two audios can play simultaneously; see the counterexample.) -/
theorem claimC8_theorem :
    (∀ s t cap, jsTrim t = [] → speakStep s (.call t cap) = s) ∧
    (∀ s t a, jsTrim t ≠ [] →
      (speakStep s (.call t (some a))).playing = s.playing.erase a ∧
      (speakStep s (.call t (some a))).pendingFetches = s.pendingFetches ++ [t] ∧
      (speakStep s (.call t (some a))).nextId = s.nextId) ∧
    (∀ s t, jsTrim t ≠ [] →
      (speakStep s (.call t none)).playing = s.playing) ∧
    (∀ s a, a ∈ s.playing ∨ s.currentAudio = some a →
      (speakStep s (.ended a)).currentAudio = none ∧
      (speakStep s (.ended a)).playing = s.playing.erase a ∧
      a ∈ (speakStep s (.ended a)).revoked ∧
      (speakStep s (.errored a)).currentAudio = none ∧
      a ∈ (speakStep s (.errored a)).revoked) ∧
    (∀ items, (seqRun items).playing.length ≤ 1) := by
  refine ⟨?_, ?_, ?_, ?_, ?_⟩
  · intro s t cap ht
    simp [speakStep, ht]
  · intro s t a ht
    simp [speakStep, ht]
  · intro s t ht
    simp [speakStep, ht]
  · intro s a ha
    have hg : (a ∈ s.playing || s.currentAudio = some a) = true := by
      rcases ha with h | h <;> simp [h]
    refine ⟨?_, ?_, ?_, ?_, ?_⟩ <;> simp [speakStep, hg]
  · intro items
    obtain ⟨-, hpl, -, -⟩ := seqRun_inv items
    rcases hpl with h | ⟨a, ha, -⟩
    · rw [h]; exact Nat.zero_le 1
    · rw [ha]; exact Nat.le_refl 1

/-- Witness for C8 (amended) at concrete calls. -/
theorem claimC8_witness :
    speakStep ⟨none, [], [], 0, []⟩ (.call (str "  ") none) =
      (⟨none, [], [], 0, []⟩ : SpeakState) ∧
    (speakStep ⟨some 0, [0], [], 1, []⟩
        (.call (str "hello") (some 0))).playing = [] ∧
    (speakStep ⟨some 0, [0], [], 1, []⟩ (.ended 0)).currentAudio = none ∧
    (seqRun [(str "hello", .resolveNoEnd),
        (str "world", .resolveThenEnd)]).playing.length ≤ 1 :=
  ⟨claimC8_theorem.1 _ _ none (by decide),
   by
     have h := (claimC8_theorem.2.1 ⟨some 0, [0], [], 1, []⟩ (str "hello") 0
       (by decide)).1
     simpa using h,
   (claimC8_theorem.2.2.2.1 ⟨some 0, [0], [], 1, []⟩ 0 (Or.inr rfl)).1,
   claimC8_theorem.2.2.2.2 _⟩

/-- Counterexample to C8 as stated: the two sequential `speakText` calls of
one turn (acknowledgment, then reply) come from the same render closure,
which captured the pre-turn `currentAudio` of `null`; the reply call
therefore pauses nothing, and once its fetch resolves both the
acknowledgment audio and the reply audio are in a playing state — even
though the acknowledgment's fetch settled before the reply call began. -/
theorem claimC8_counterexample : ¬ claimC8Stated := fun h =>
  absurd (h badSpeakEvs) (by decide)

/-- The apology text is non-empty after trimming, so `speakText` issues its
synthesis request. -/
theorem speakTextReqs_apology : speakTextReqs apologyText = [apologyText] := by
  decide

/-- C5 (amended): when the backend request fails (network error, non-success
status, or malformed body) the catch block synthesizes the fixed apology
phrase; and in every case — including a failure of speech synthesis, which
is caught inside `speakText` and never reaches the turn handler — the filler
loop is stopped, the processing and playing flags are cleared and no
exception propagates out of `handleLiveChatMessage`.  (On a synthesis
failure alone no apology is requested; see the counterexample.) -/
theorem claimC5_theorem (messageText : Str) (idx : Nat) (env : TurnEnv) :
    (env.backendResult = none →
      apologyText ∈ (runTurn messageText idx env).ttsRequests) ∧
    (runTurn messageText idx env).fillerStoppedAtEnd = true ∧
    (runTurn messageText idx env).processingAfter = false ∧
    (runTurn messageText idx env).playingAfter = false ∧
    (runTurn messageText idx env).threw = false := by
  refine ⟨?_, ?_, ?_, ?_, ?_⟩ <;>
    unfold runTurn <;>
    rcases env.backendResult with _ | reply <;>
    simp [speakTextReqs_apology]

/-- Witness for C5 (amended): a failing backend request leads to the apology
request and a clean turn end. -/
theorem claimC5_witness :
    apologyText ∈
      (runTurn (str "tell me the weather forecast for tomorrow") 0
        ⟨none, fun _ => true⟩).ttsRequests ∧
    (runTurn (str "tell me the weather forecast for tomorrow") 0
        ⟨none, fun _ => true⟩).threw = false :=
  ⟨(claimC5_theorem _ 0 ⟨none, fun _ => true⟩).1 rfl,
   (claimC5_theorem _ 0 ⟨none, fun _ => true⟩).2.2.2.2⟩

/-- Counterexample to C5 as stated: when the backend succeeds but the
synthesis of the reply fails, `speakText` swallows the failure internally;
the turn completes silently and the apology phrase is never requested, so
"a fixed apology phrase is spoken instead of a reply" fails for
speech-synthesis failures. -/
theorem claimC5_counterexample :
    ¬ claimC5At (str "tell me the weather forecast for tomorrow") 0
        ⟨some (str "It is sunny"), fun _ => false⟩ := fun h =>
  absurd (h (Or.inr ⟨str "It is sunny", rfl, rfl⟩)).1 (by decide)

/-- C6: an utterance is classified as a simple greeting/closing exactly when
its lowercased text contains one of the fixed phrases as a substring and its
total length is under 20 characters; a greeting triggers no filler phrase
and no filler loop, while every non-greeting utterance first triggers the
randomly selected filler acknowledgment phrase (drawn from the fixed
ten-message set) followed by the start of the recurring filler loop. -/
theorem claimC6_theorem (messageText : Str) (idx : Nat)
    (hidx : idx < thinkingMessages.length) :
    (isSimpleGreeting messageText = true ↔
      ∃ g ∈ simpleGreetings,
        substrOf g (jsToLower messageText) = true ∧ messageText.length < 20) ∧
    (isSimpleGreeting messageText = true →
      thinkingPhase messageText idx = [TurnAction.backendSend messageText]) ∧
    (isSimpleGreeting messageText = false →
      thinkingPhase messageText idx =
        [TurnAction.speakReq (thinkingMessages.getD idx []),
         TurnAction.startFillerLoop, TurnAction.backendSend messageText] ∧
      thinkingMessages.getD idx [] ∈ thinkingMessages) := by
  refine ⟨?_, ?_, ?_⟩
  · unfold isSimpleGreeting
    rw [List.any_eq_true]
    constructor
    · rintro ⟨g, hg, hp⟩
      rw [Bool.and_eq_true, decide_eq_true_iff] at hp
      exact ⟨g, hg, hp.1, hp.2⟩
    · rintro ⟨g, hg, h1, h2⟩
      exact ⟨g, hg, by rw [Bool.and_eq_true, decide_eq_true_iff]; exact ⟨h1, h2⟩⟩
  · intro h
    unfold thinkingPhase
    rw [if_pos h]
  · intro h
    unfold thinkingPhase
    rw [if_neg (by rw [h]; exact Bool.false_ne_true)]
    refine ⟨rfl, ?_⟩
    rw [List.getD_eq_getElem _ _ hidx]
    exact List.getElem_mem _

/-- Witness for C6: the spec scenario input `hi` is classified simple and
skips the fillers; a long utterance gets the filler phrase and loop. -/
theorem claimC6_witness :
    thinkingPhase (str "hi") 0 = [TurnAction.backendSend (str "hi")] ∧
    thinkingPhase (str "tell me the weather forecast for tomorrow") 1 =
      [TurnAction.speakReq (thinkingMessages.getD 1 []),
       TurnAction.startFillerLoop,
       TurnAction.backendSend (str "tell me the weather forecast for tomorrow")] :=
  ⟨(claimC6_theorem (str "hi") 0 (by decide)).2.1 (by decide),
   ((claimC6_theorem _ 1 (by decide)).2.2 (by decide)).1⟩

/-- A dispatched debounce snapshot is the trimmed transcript and passed the
noise floor. -/
theorem debounceDispatch_some (t m : Str) (h : debounceDispatch t = some m) :
    m = jsTrim t ∧ m.length > 2 := by
  unfold debounceDispatch at h
  by_cases hc : jsTrim t ≠ [] ∧ (jsTrim t).length > 2
  · rw [if_pos hc] at h
    cases h
    exact ⟨rfl, hc.2⟩
  · rw [if_neg hc] at h
    cases h

/-- When consecutive updates arrive strictly within the debounce window,
every timer but the last is cancelled: only the final update fires, at its
arrival time plus the window. -/
theorem debounceFires_of_gapsLt (us : List Upd) (hne : us ≠ [])
    (hg : gapsLt us = true) :
    debounceFires us =
      [((us.getLast hne).time + debounceMs, (us.getLast hne).text)] := by
  induction us with
  | nil => exact absurd rfl hne
  | cons u tl ih =>
    cases tl with
    | nil => rfl
    | cons v rest =>
      simp only [gapsLt, Bool.and_eq_true, decide_eq_true_iff] at hg
      rw [show debounceFires (u :: v :: rest) =
          if v.time < u.time + debounceMs then debounceFires (v :: rest)
          else (u.time + debounceMs, u.text) :: debounceFires (v :: rest) from rfl]
      rw [if_pos hg.1, List.getLast_cons (List.cons_ne_nil v rest)]
      exact ih (List.cons_ne_nil v rest) hg.2

/-- C2: for updates arriving strictly less than 1.5 s apart, each earlier
pending timer is cancelled by the arrival of the newer update, no request is
issued before the last update plus 1.5 s, and any request issued carries
exactly the trimmed text of the last update. -/
theorem claimC2_theorem (us : List Upd) (hne : us ≠ []) (hg : gapsLt us = true) :
    debounceFires us =
      [((us.getLast hne).time + debounceMs, (us.getLast hne).text)] ∧
    ∀ p ∈ debounceRequests us,
      p.1 = (us.getLast hne).time + debounceMs ∧
      p.2 = jsTrim (us.getLast hne).text := by
  have hfires := debounceFires_of_gapsLt us hne hg
  refine ⟨hfires, ?_⟩
  intro p hp
  unfold debounceRequests at hp
  rw [hfires] at hp
  simp only [List.filterMap_cons, List.filterMap_nil] at hp
  rcases hd : debounceDispatch (us.getLast hne).text with _ | m
  · rw [hd] at hp
    cases hp
  · rw [hd] at hp
    simp at hp
    subst hp
    exact ⟨rfl, (debounceDispatch_some _ _ hd).1⟩

/-- Witness for C2 at a concrete two-update sequence 1 s apart. -/
theorem claimC2_witness :
    debounceFires [⟨0, str "hello there"⟩, ⟨1000, str " hello there friend "⟩] =
      [(2500, str " hello there friend ")] ∧
    debounceRequests [⟨0, str "hello there"⟩, ⟨1000, str " hello there friend "⟩] =
      [(2500, str "hello there friend")] :=
  ⟨(claimC2_theorem _ (by decide) (by decide)).1, by decide⟩

/-- No URL-regex alternative can begin at a whitespace character. -/
theorem urlMatchAt_ws (c : Char) (l : Str) (h : isWsC c = true) :
    urlMatchAt (c :: l) = false := by
  simp only [isWsC, Bool.or_eq_true, decide_eq_true_eq] at h
  rcases h with ((((h | h) | h) | h) | h) | h <;> subst h <;> rfl

/-- Whitespace characters are not in the `[a-zA-Z0-9-]` class. -/
theorem ws_not_alnumdash (c : Char) (h : isWsC c = true) : isAlnumDash c = false := by
  simp only [isWsC, Bool.or_eq_true, decide_eq_true_eq] at h
  rcases h with ((((h | h) | h) | h) | h) | h <;> subst h <;> rfl

/-- Whitespace characters are not letters. -/
theorem ws_not_alpha (c : Char) (h : isWsC c = true) : isAlphaC c = false := by
  simp only [isWsC, Bool.or_eq_true, decide_eq_true_eq] at h
  rcases h with ((((h | h) | h) | h) | h) | h <;> subst h <;> rfl

/-- Whitespace characters are not the literal dot. -/
theorem ws_ne_dot (c : Char) (h : isWsC c = true) : (c = '.') = False := by
  simp only [isWsC, Bool.or_eq_true, decide_eq_true_eq] at h
  rcases h with ((((h | h) | h) | h) | h) | h <;> subst h <;> simp

/-- Whitespace characters are not the literal slash. -/
theorem ws_ne_slash (c : Char) (h : isWsC c = true) : (c = '/') = False := by
  simp only [isWsC, Bool.or_eq_true, decide_eq_true_eq] at h
  rcases h with ((((h | h) | h) | h) | h) | h <;> subst h <;> simp

/-- A literal prefix still matches after appending to the right. -/
theorem prefixOf_append (p x m : Str) (h : prefixOf p x = true) :
    prefixOf p (x ++ m) = true := by
  induction p generalizing x with
  | nil => rfl
  | cons a ps ih =>
    cases x with
    | nil => cases h
    | cons b xs =>
      simp only [prefixOf, Bool.and_eq_true, decide_eq_true_eq] at h ⊢
      exact ⟨h.1, ih xs h.2⟩

/-- A matching literal prefix is no longer than the string. -/
theorem prefixOf_length (p x : Str) (h : prefixOf p x = true) :
    p.length ≤ x.length := by
  induction p generalizing x with
  | nil => exact Nat.zero_le _
  | cons a ps ih =>
    cases x with
    | nil => cases h
    | cons b xs =>
      simp only [prefixOf, Bool.and_eq_true] at h
      simpa using ih xs h.2

/-- A non-whitespace head survives appending to the right. -/
theorem reqNonWsHead_append (y m : Str) (h : reqNonWsHead y = true) :
    reqNonWsHead (y ++ m) = true := by
  cases y with
  | nil => cases h
  | cons c t => exact h

/-- Dropping within the left part of an append. -/
theorem drop_append_of_le (n : Nat) (x m : Str) (h : n ≤ x.length) :
    (x ++ m).drop n = x.drop n ++ m := by
  induction n generalizing x with
  | zero => rfl
  | succ n ih =>
    cases x with
    | nil => cases h
    | cons c xs =>
      simp only [List.cons_append, List.drop_succ_cons]
      exact ih xs (Nat.le_of_succ_le_succ h)

/-- When `takeWhile`/`dropWhile` split strictly inside `l`, appending on the
right does not move the split point. -/
theorem tdw_append_of_ne (p : Char → Bool) (l m : Str) (h : l.dropWhile p ≠ []) :
    (l ++ m).takeWhile p = l.takeWhile p ∧
    (l ++ m).dropWhile p = l.dropWhile p ++ m := by
  induction l with
  | nil => exact absurd rfl h
  | cons c l ih =>
    cases hp : p c with
    | true =>
      have h2 : l.dropWhile p ≠ [] := by
        simpa [List.dropWhile_cons, hp] using h
      obtain ⟨h3, h4⟩ := ih h2
      constructor
      · simp [List.takeWhile_cons, hp, h3]
      · simp [List.dropWhile_cons, hp, h4]
    | false =>
      constructor
      · simp [List.takeWhile_cons, hp]
      · simp [List.dropWhile_cons, hp]

/-- When `p` holds on all of `l`, the `takeWhile`/`dropWhile` split of
`l ++ m` continues into `m`. -/
theorem dw_append_of_nil (p : Char → Bool) (l m : Str) (h : l.dropWhile p = []) :
    (l ++ m).takeWhile p = l ++ m.takeWhile p ∧
    (l ++ m).dropWhile p = m.dropWhile p := by
  induction l with
  | nil => exact ⟨rfl, rfl⟩
  | cons c l ih =>
    cases hp : p c with
    | true =>
      have h2 : l.dropWhile p = [] := by
        simpa [List.dropWhile_cons, hp] using h
      obtain ⟨h3, h4⟩ := ih h2
      constructor
      · simp [List.takeWhile_cons, hp, h3]
      · simp [List.dropWhile_cons, hp, h4]
    | false =>
      rw [List.dropWhile_cons, if_neg (by simp [hp])] at h
      cases h

/-- Destructuring a successful `dotAlphas` match. -/
theorem dotAlphas_shape (r : Str) (h : dotAlphas r = true) :
    ∃ a b t, r = '.' :: a :: b :: t ∧ isAlphaC a = true ∧ isAlphaC b = true := by
  match r with
  | [] => cases h
  | [c] => cases h
  | [c, a] => cases h
  | c :: a :: b :: t =>
    simp only [dotAlphas, Bool.and_eq_true, decide_eq_true_eq] at h
    exact ⟨a, b, t, by rw [h.1], h.2.1, h.2.2⟩

/-- Destructuring a successful `dotAlphasSlash` match. -/
theorem dotAlphasSlash_shape (r : Str) (h : dotAlphasSlash r = true) :
    ∃ r2, r = '.' :: r2 ∧ (r2.takeWhile isAlphaC).length ≥ 2 ∧
      ∃ q, r2.dropWhile isAlphaC = '/' :: q := by
  match r with
  | [] => cases h
  | c :: r2 =>
    simp only [dotAlphasSlash, Bool.and_eq_true, decide_eq_true_eq] at h
    obtain ⟨⟨h1, h2⟩, h3⟩ := h
    refine ⟨r2, by rw [h1], h2, ?_⟩
    rcases hq : r2.dropWhile isAlphaC with _ | ⟨e, q⟩
    · rw [hq] at h3
      cases h3
    · rw [hq] at h3
      simp only [slashHead, decide_eq_true_eq] at h3
      exact ⟨q, by rw [h3]⟩

/-- The first regex alternative is preserved by appending on the right. -/
theorem altHttp_append (x m : Str) (h : altHttp x = true) :
    altHttp (x ++ m) = true := by
  simp only [altHttp, Bool.or_eq_true, Bool.and_eq_true] at h ⊢
  rcases h with ⟨h1, h2⟩ | ⟨h1, h2⟩
  · left
    refine ⟨prefixOf_append _ _ _ h1, ?_⟩
    rw [drop_append_of_le 7 x m (prefixOf_length _ _ h1)]
    exact reqNonWsHead_append _ _ h2
  · right
    refine ⟨prefixOf_append _ _ _ h1, ?_⟩
    rw [drop_append_of_le 8 x m (prefixOf_length _ _ h1)]
    exact reqNonWsHead_append _ _ h2

/-- The second regex alternative is preserved by appending on the right. -/
theorem altWww_append (x m : Str) (h : altWww x = true) :
    altWww (x ++ m) = true := by
  simp only [altWww, Bool.and_eq_true] at h ⊢
  obtain ⟨h1, h2⟩ := h
  refine ⟨prefixOf_append _ _ _ h1, ?_⟩
  rw [drop_append_of_le 4 x m (prefixOf_length _ _ h1)]
  exact reqNonWsHead_append _ _ h2

/-- The fourth regex alternative is preserved by appending on the right. -/
theorem altDomain_append (x m : Str) (h : altDomain x = true) :
    altDomain (x ++ m) = true := by
  simp only [altDomain, Bool.and_eq_true, decide_eq_true_eq] at h ⊢
  obtain ⟨h1, h2⟩ := h
  obtain ⟨a, b, t, hr, ha, hb⟩ := dotAlphas_shape _ h2
  have hne : x.dropWhile isAlnumDash ≠ [] := by
    rw [hr]; exact List.cons_ne_nil _ _
  obtain ⟨ht, hd⟩ := tdw_append_of_ne isAlnumDash x m hne
  refine ⟨by rw [ht]; exact h1, ?_⟩
  rw [hd, hr, List.cons_append, List.cons_append, List.cons_append]
  simp [dotAlphas, ha, hb]

/-- The third regex alternative is preserved by appending on the right. -/
theorem altPath_append (x m : Str) (h : altPath x = true) :
    altPath (x ++ m) = true := by
  simp only [altPath, Bool.and_eq_true, decide_eq_true_eq] at h ⊢
  obtain ⟨h1, h2⟩ := h
  obtain ⟨r2, hr, hlen2, q, hq⟩ := dotAlphasSlash_shape _ h2
  have hne : x.dropWhile isAlnumDash ≠ [] := by
    rw [hr]; exact List.cons_ne_nil _ _
  obtain ⟨ht, hd⟩ := tdw_append_of_ne isAlnumDash x m hne
  refine ⟨by rw [ht]; exact h1, ?_⟩
  rw [hd, hr, List.cons_append]
  have hne2 : r2.dropWhile isAlphaC ≠ [] := by
    rw [hq]; exact List.cons_ne_nil _ _
  obtain ⟨ht2, hd2⟩ := tdw_append_of_ne isAlphaC r2 m hne2
  simp only [dotAlphasSlash, Bool.and_eq_true, decide_eq_true_eq]
  refine ⟨⟨trivial, by rw [ht2]; exact hlen2⟩, ?_⟩
  rw [hd2, hq, List.cons_append]
  simp [slashHead]

/-- A URL-regex match at a position is preserved by appending on the right:
all mandatory parts of every alternative lie before the first whitespace. -/
theorem urlMatchAt_append (x m : Str) (h : urlMatchAt x = true) :
    urlMatchAt (x ++ m) = true := by
  simp only [urlMatchAt, Bool.or_eq_true] at h ⊢
  rcases h with ((h | h) | h) | h
  · exact Or.inl (Or.inl (Or.inl (altHttp_append _ _ h)))
  · exact Or.inl (Or.inl (Or.inr (altWww_append _ _ h)))
  · exact Or.inl (Or.inr (altPath_append _ _ h))
  · exact Or.inr (altDomain_append _ _ h)

/-- A non-whitespace literal matching across `X ++ W` with `W`
whitespace-headed already matches inside `X`. -/
theorem prefixOf_split (p X W : Str) (hp : allNonWs p = true)
    (hW : wsHeadedB W = true) (h : prefixOf p (X ++ W) = true) :
    prefixOf p X = true := by
  induction p generalizing X with
  | nil => rfl
  | cons a ps ih =>
    cases X with
    | nil =>
      cases W with
      | nil => cases h
      | cons w ws =>
        simp only [List.nil_append, prefixOf, Bool.and_eq_true,
          decide_eq_true_eq] at h
        simp only [allNonWs, List.all_cons, Bool.and_eq_true] at hp
        simp only [wsHeadedB] at hW
        rw [h.1, hW] at hp
        cases hp.1
    | cons b xs =>
      simp only [List.cons_append, prefixOf, Bool.and_eq_true] at h ⊢
      simp only [allNonWs, List.all_cons, Bool.and_eq_true] at hp
      exact ⟨h.1, ih xs hp.2 h.2⟩

/-- Appending a whitespace-headed tail does not change whether the head is
non-whitespace. -/
theorem reqNonWsHead_append_ws (y W : Str) (hW : wsHeadedB W = true) :
    reqNonWsHead (y ++ W) = reqNonWsHead y := by
  cases y with
  | nil =>
    cases W with
    | nil => rfl
    | cons w ws =>
      simp only [wsHeadedB] at hW
      simp [reqNonWsHead, hW]
  | cons c t => rfl

/-- The first regex alternative on `X ++ W` with `W` whitespace-headed
already holds on `X`. -/
theorem altHttp_split (X W : Str) (hW : wsHeadedB W = true)
    (h : altHttp (X ++ W) = true) : altHttp X = true := by
  simp only [altHttp, Bool.or_eq_true, Bool.and_eq_true] at h ⊢
  rcases h with ⟨h1, h2⟩ | ⟨h1, h2⟩
  · left
    have h1x := prefixOf_split _ X W (by decide) hW h1
    rw [drop_append_of_le 7 X W (prefixOf_length _ _ h1x),
      reqNonWsHead_append_ws _ _ hW] at h2
    exact ⟨h1x, h2⟩
  · right
    have h1x := prefixOf_split _ X W (by decide) hW h1
    rw [drop_append_of_le 8 X W (prefixOf_length _ _ h1x),
      reqNonWsHead_append_ws _ _ hW] at h2
    exact ⟨h1x, h2⟩

/-- The second regex alternative on `X ++ W` with `W` whitespace-headed
already holds on `X`. -/
theorem altWww_split (X W : Str) (hW : wsHeadedB W = true)
    (h : altWww (X ++ W) = true) : altWww X = true := by
  simp only [altWww, Bool.and_eq_true] at h ⊢
  obtain ⟨h1, h2⟩ := h
  have h1x := prefixOf_split _ X W (by decide) hW h1
  rw [drop_append_of_le 4 X W (prefixOf_length _ _ h1x),
    reqNonWsHead_append_ws _ _ hW] at h2
  exact ⟨h1x, h2⟩

/-- A whitespace-headed list is untouched by `dropWhile` over the regex
character classes. -/
theorem dw_ws_self (W : Str) (hW : wsHeadedB W = true) :
    W.dropWhile isAlnumDash = W ∧ W.dropWhile isAlphaC = W := by
  cases W with
  | nil => exact ⟨rfl, rfl⟩
  | cons w ws =>
    simp only [wsHeadedB] at hW
    constructor
    · rw [List.dropWhile_cons, if_neg (by simp [ws_not_alnumdash w hW])]
    · rw [List.dropWhile_cons, if_neg (by simp [ws_not_alpha w hW])]

/-- The fourth regex alternative on `X ++ W` with `W` whitespace-headed
already holds on `X`. -/
theorem altDomain_split (X W : Str) (hW : wsHeadedB W = true)
    (h : altDomain (X ++ W) = true) : altDomain X = true := by
  simp only [altDomain, Bool.and_eq_true, decide_eq_true_eq] at h ⊢
  obtain ⟨h1, h2⟩ := h
  rcases hdx : X.dropWhile isAlnumDash with _ | ⟨d, D⟩
  · obtain ⟨-, hd⟩ := dw_append_of_nil isAlnumDash X W hdx
    rw [hd, (dw_ws_self W hW).1] at h2
    obtain ⟨a, b, t, hshape, -, -⟩ := dotAlphas_shape _ h2
    cases W with
    | nil => cases hshape
    | cons w ws =>
      simp only [wsHeadedB] at hW
      rw [List.cons.injEq] at hshape
      exact absurd hshape.1 (by rw [ws_ne_dot w hW]; exact not_false)
  · obtain ⟨ht, hd⟩ := tdw_append_of_ne isAlnumDash X W (by rw [hdx]; simp)
    rw [ht] at h1
    rw [hd, hdx] at h2
    refine ⟨h1, ?_⟩
    obtain ⟨a, b, t, hshape, ha, hb⟩ := dotAlphas_shape _ h2
    rw [List.cons_append, List.cons.injEq] at hshape
    obtain ⟨hd1, hshape⟩ := hshape
    subst hd1
    cases D with
    | nil =>
      rw [List.nil_append] at hshape
      cases W with
      | nil => cases hshape
      | cons w ws =>
        simp only [wsHeadedB] at hW
        rw [List.cons.injEq] at hshape
        rw [← hshape.1, ws_not_alpha w hW] at ha
        cases ha
    | cons a0 D =>
      rw [List.cons_append, List.cons.injEq] at hshape
      obtain ⟨ha0, hshape⟩ := hshape
      subst ha0
      cases D with
      | nil =>
        rw [List.nil_append] at hshape
        cases W with
        | nil => cases hshape
        | cons w ws =>
          simp only [wsHeadedB] at hW
          rw [List.cons.injEq] at hshape
          rw [← hshape.1, ws_not_alpha w hW] at hb
          cases hb
      | cons b0 D =>
        rw [List.cons_append, List.cons.injEq] at hshape
        simp only [dotAlphas, Bool.and_eq_true, decide_eq_true_eq]
        refine ⟨trivial, ha, ?_⟩
        rw [hshape.1]
        exact hb

/-- The third regex alternative on `X ++ W` with `W` whitespace-headed
already holds on `X`. -/
theorem altPath_split (X W : Str) (hW : wsHeadedB W = true)
    (h : altPath (X ++ W) = true) : altPath X = true := by
  simp only [altPath, Bool.and_eq_true, decide_eq_true_eq] at h ⊢
  obtain ⟨h1, h2⟩ := h
  rcases hdx : X.dropWhile isAlnumDash with _ | ⟨d, D⟩
  · obtain ⟨-, hd⟩ := dw_append_of_nil isAlnumDash X W hdx
    rw [hd, (dw_ws_self W hW).1] at h2
    obtain ⟨r2, hshape, -, -⟩ := dotAlphasSlash_shape _ h2
    cases W with
    | nil => cases hshape
    | cons w ws =>
      simp only [wsHeadedB] at hW
      rw [List.cons.injEq] at hshape
      exact absurd hshape.1 (by rw [ws_ne_dot w hW]; exact not_false)
  · obtain ⟨ht, hd⟩ := tdw_append_of_ne isAlnumDash X W (by rw [hdx]; simp)
    rw [ht] at h1
    rw [hd, hdx] at h2
    refine ⟨h1, ?_⟩
    obtain ⟨r2, hshape, hlen2, q, hq⟩ := dotAlphasSlash_shape _ h2
    rw [List.cons_append, List.cons.injEq] at hshape
    obtain ⟨hd1, hr2⟩ := hshape
    subst hd1
    subst hr2
    rcases hdD : D.dropWhile isAlphaC with _ | ⟨e, E⟩
    · obtain ⟨-, hdw⟩ := dw_append_of_nil isAlphaC D W hdD
      rw [hdw, (dw_ws_self W hW).2] at hq
      cases W with
      | nil => cases hq
      | cons w ws =>
        simp only [wsHeadedB] at hW
        rw [List.cons.injEq] at hq
        exact absurd hq.1 (by rw [ws_ne_slash w hW]; exact not_false)
    · obtain ⟨ht2, hd2⟩ := tdw_append_of_ne isAlphaC D W (by rw [hdD]; simp)
      rw [ht2] at hlen2
      rw [hd2, hdD, List.cons_append, List.cons.injEq] at hq
      simp only [dotAlphasSlash, Bool.and_eq_true, decide_eq_true_eq]
      refine ⟨⟨trivial, hlen2⟩, ?_⟩
      rw [hdD]
      simp [slashHead, hq.1]

/-- A URL-regex match on `l ++ W` with `W` whitespace-headed already holds
on `l`. -/
theorem urlMatchAt_split (l W : Str) (hW : wsHeadedB W = true)
    (h : urlMatchAt (l ++ W) = true) : urlMatchAt l = true := by
  simp only [urlMatchAt, Bool.or_eq_true] at h ⊢
  rcases h with ((h | h) | h) | h
  · exact Or.inl (Or.inl (Or.inl (altHttp_split _ _ hW h)))
  · exact Or.inl (Or.inl (Or.inr (altWww_split _ _ hW h)))
  · exact Or.inl (Or.inr (altPath_split _ _ hW h))
  · exact Or.inr (altDomain_split _ _ hW h)

/-- Matching at a position only depends on the text up to the next
whitespace: appending a whitespace-headed tail changes nothing. -/
theorem urlMatchAt_append_ws (l W : Str) (hW : wsHeadedB W = true) :
    urlMatchAt (l ++ W) = urlMatchAt l := by
  cases hm : urlMatchAt l with
  | true => exact urlMatchAt_append l W hm
  | false =>
    cases hm2 : urlMatchAt (l ++ W) with
    | false => rfl
    | true =>
      rw [urlMatchAt_split l W hW hm2] at hm
      cases hm

/-- Unfolding `hasURL` over a cons cell. -/
theorem hasURL_cons (c : Char) (l : Str) :
    hasURL (c :: l) = (urlMatchAt (c :: l) || hasURL l) := by
  simp [hasURL]

/-- A match-free string stays match-free after `dropWhile`. -/
theorem hasURL_dropWhile (p : Char → Bool) (l : Str) (h : hasURL l = false) :
    hasURL (l.dropWhile p) = false := by
  induction l with
  | nil => exact h
  | cons c cs ih =>
    rw [hasURL_cons, Bool.or_eq_false_iff] at h
    rw [List.dropWhile_cons]
    split
    · exact ih h.2
    · rw [hasURL_cons, Bool.or_eq_false_iff]
      exact h

/-- Removing a whitespace-headed tail from a match-free string keeps it
match-free. -/
theorem hasURL_append_ws_cancel (R Wt : Str) (hW : wsHeadedB Wt = true)
    (h : hasURL (R ++ Wt) = false) : hasURL R = false := by
  induction R with
  | nil => rfl
  | cons c R ih =>
    rw [List.cons_append, hasURL_cons, Bool.or_eq_false_iff] at h
    rw [hasURL_cons, Bool.or_eq_false_iff]
    refine ⟨?_, ih h.2⟩
    rw [← urlMatchAt_append_ws (c :: R) Wt hW]
    exact h.1

/-- The fuel of `stripUrlsGo` is irrelevant as long as it covers the length
of the list. -/
theorem stripUrlsGo_fuel (k : Nat) :
    ∀ l : Str, l.length ≤ k → ∀ n m, l.length ≤ n → l.length ≤ m →
      stripUrlsGo n l = stripUrlsGo m l := by
  induction k with
  | zero =>
    intro l hl n m hn hm
    have hnil : l = [] := List.eq_nil_of_length_eq_zero (Nat.le_zero.mp hl)
    subst hnil
    cases n <;> cases m <;> rfl
  | succ k ih =>
    intro l hl n m hn hm
    cases l with
    | nil => cases n <;> cases m <;> rfl
    | cons c cs =>
      cases n with
      | zero => simp at hn
      | succ n =>
        cases m with
        | zero => simp at hm
        | succ m =>
          simp only [List.length_cons] at hl hn hm
          simp only [stripUrlsGo]
          have hcs : cs.length ≤ k := by omega
          have hdw : (cs.dropWhile fun d => !isWsC d).length ≤ cs.length :=
            (List.dropWhile_sublist _).length_le
          by_cases hws : isWsC c = true
          · rw [if_pos hws, if_pos hws,
              ih cs hcs n m (by omega) (by omega)]
          · rw [if_neg hws, if_neg hws]
            by_cases hmt : urlMatchAt (c :: cs) = true
            · rw [if_pos hmt, if_pos hmt]
              exact ih _ (le_trans hdw hcs) n m
                (le_trans hdw (by omega)) (le_trans hdw (by omega))
            · rw [if_neg hmt, if_neg hmt,
                ih cs hcs n m (by omega) (by omega)]

/-- `stripUrls` copies a whitespace character. -/
theorem stripUrls_ws (c : Char) (cs : Str) (h : isWsC c = true) :
    stripUrls (c :: cs) = c :: stripUrls cs := by
  show stripUrlsGo (cs.length + 1) (c :: cs) = c :: stripUrlsGo cs.length cs
  simp only [stripUrlsGo]
  rw [if_pos h]

/-- `stripUrls` deletes a match up to the next whitespace character. -/
theorem stripUrls_skip (c : Char) (cs : Str) (h1 : isWsC c = false)
    (h2 : urlMatchAt (c :: cs) = true) :
    stripUrls (c :: cs) = stripUrls (cs.dropWhile fun d => !isWsC d) := by
  show stripUrlsGo (cs.length + 1) (c :: cs) = _
  simp only [stripUrlsGo]
  rw [if_neg (by simp [h1]), if_pos h2]
  exact stripUrlsGo_fuel cs.length _ (List.dropWhile_sublist _).length_le
    cs.length _ (List.dropWhile_sublist _).length_le (Nat.le_refl _)

/-- `stripUrls` copies a non-whitespace character at which no match
begins. -/
theorem stripUrls_copy (c : Char) (cs : Str) (h1 : isWsC c = false)
    (h2 : urlMatchAt (c :: cs) = false) :
    stripUrls (c :: cs) = c :: stripUrls cs := by
  show stripUrlsGo (cs.length + 1) (c :: cs) = c :: stripUrlsGo cs.length cs
  simp only [stripUrlsGo]
  rw [if_neg (by simp [h1]), if_neg (by simp [h2])]

/-- The fuel of `collapseWsGo` is irrelevant as long as it covers the length
of the list. -/
theorem collapseWsGo_fuel (k : Nat) :
    ∀ l : Str, l.length ≤ k → ∀ n m, l.length ≤ n → l.length ≤ m →
      collapseWsGo n l = collapseWsGo m l := by
  induction k with
  | zero =>
    intro l hl n m hn hm
    have hnil : l = [] := List.eq_nil_of_length_eq_zero (Nat.le_zero.mp hl)
    subst hnil
    cases n <;> cases m <;> rfl
  | succ k ih =>
    intro l hl n m hn hm
    cases l with
    | nil => cases n <;> cases m <;> rfl
    | cons c cs =>
      cases n with
      | zero => simp at hn
      | succ n =>
        cases m with
        | zero => simp at hm
        | succ m =>
          simp only [List.length_cons] at hl hn hm
          simp only [collapseWsGo]
          have hcs : cs.length ≤ k := by omega
          have hdw : (cs.dropWhile isWsC).length ≤ cs.length :=
            (List.dropWhile_sublist _).length_le
          by_cases hws : isWsC c = true
          · rw [if_pos hws, if_pos hws]
            rw [ih _ (le_trans hdw hcs) n m
              (le_trans hdw (by omega)) (le_trans hdw (by omega))]
          · rw [if_neg hws, if_neg hws,
              ih cs hcs n m (by omega) (by omega)]

/-- `collapseWs` replaces a maximal whitespace run by one space. -/
theorem collapseWs_ws (c : Char) (cs : Str) (h : isWsC c = true) :
    collapseWs (c :: cs) = ' ' :: collapseWs (cs.dropWhile isWsC) := by
  show collapseWsGo (cs.length + 1) (c :: cs) = _
  simp only [collapseWsGo]
  rw [if_pos h]
  rw [collapseWsGo_fuel cs.length _ (List.dropWhile_sublist _).length_le
    cs.length _ (List.dropWhile_sublist _).length_le (Nat.le_refl _)]
  rfl

/-- `collapseWs` copies non-whitespace characters. -/
theorem collapseWs_copy (c : Char) (cs : Str) (h : isWsC c = false) :
    collapseWs (c :: cs) = c :: collapseWs cs := by
  show collapseWsGo (cs.length + 1) (c :: cs) = c :: collapseWsGo cs.length cs
  simp only [collapseWsGo]
  rw [if_neg (by simp [h])]

/-- The `takeWhile` of the non-whitespace predicate is all
non-whitespace. -/
theorem allNonWs_takeWhile (l : Str) :
    allNonWs (l.takeWhile fun c => !isWsC c) = true := by
  induction l with
  | nil => rfl
  | cons c cs ih =>
    rw [List.takeWhile_cons]
    split
    · rename_i hc
      simp only [allNonWs, List.all_cons, Bool.and_eq_true]
      exact ⟨by simpa using hc, ih⟩
    · rfl

/-- The `dropWhile` of the non-whitespace predicate is whitespace-headed
(or empty). -/
theorem wsHeadedB_dropWhile (l : Str) :
    wsHeadedB (l.dropWhile fun c => !isWsC c) = true := by
  induction l with
  | nil => rfl
  | cons c cs ih =>
    rw [List.dropWhile_cons]
    split
    · exact ih
    · rename_i hc
      simp only [Bool.not_eq_true', Bool.not_eq_false] at hc
      simpa [wsHeadedB] using hc

/-- Skipping the non-whitespace token `T` lands exactly at `W`. -/
theorem dropWhile_nonws_token (T W : Str) (hT : allNonWs T = true)
    (hW : wsHeadedB W = true) :
    (T ++ W).dropWhile (fun d => !isWsC d) = W := by
  induction T with
  | nil =>
    cases W with
    | nil => rfl
    | cons w ws =>
      simp only [wsHeadedB] at hW
      rw [List.nil_append, List.dropWhile_cons, if_neg (by simp [hW])]
  | cons c T ih =>
    simp only [allNonWs, List.all_cons, Bool.and_eq_true] at hT
    rw [List.cons_append, List.dropWhile_cons, if_pos (by simpa using hT.1)]
    exact ih hT.2

/-- `stripUrls` maps a token followed by a whitespace-headed rest to a
prefix of the token followed by the stripped rest: either the token had no
match and is kept whole, or it is truncated at the first match position. -/
theorem stripUrls_split (T W : Str) (hT : allNonWs T = true)
    (hW : wsHeadedB W = true) :
    ∃ P Q, T = P ++ Q ∧ stripUrls (T ++ W) = P ++ stripUrls W := by
  induction T with
  | nil => exact ⟨[], [], rfl, rfl⟩
  | cons c T ih =>
    simp only [allNonWs, List.all_cons, Bool.and_eq_true] at hT
    have hcns : isWsC c = false := by
      have := hT.1
      cases hcc : isWsC c
      · rfl
      · rw [hcc] at this; cases this
    by_cases hm : urlMatchAt (c :: (T ++ W)) = true
    · refine ⟨[], c :: T, rfl, ?_⟩
      rw [List.cons_append, stripUrls_skip c (T ++ W) hcns hm,
        dropWhile_nonws_token T W hT.2 hW]
      rfl
    · obtain ⟨P, Q, hTQ, hs⟩ := ih hT.2
      refine ⟨c :: P, Q, by rw [List.cons_append, hTQ], ?_⟩
      rw [List.cons_append,
        stripUrls_copy c (T ++ W) hcns (by simpa using hm), hs]
      rfl

/-- `stripUrls` preserves being whitespace-headed. -/
theorem stripUrls_wsHeaded (W : Str) (hW : wsHeadedB W = true) :
    wsHeadedB (stripUrls W) = true := by
  cases W with
  | nil => rfl
  | cons w ws =>
    simp only [wsHeadedB] at hW
    rw [stripUrls_ws w ws hW]
    simpa [wsHeadedB] using hW

/-- Main lemma for C7, by strong induction on the length: the output of
`stripUrls` has no URL-regex match at any position.  Kept tokens had no
match anywhere; a truncated token cannot match either, because a match of
the truncated prefix would extend (by right-append monotonicity) to a match
of the original token, contradicting the truncation point being the first
match. -/
theorem hasURL_stripUrls_aux (k : Nat) :
    ∀ l : Str, l.length ≤ k → hasURL (stripUrls l) = false := by
  induction k with
  | zero =>
    intro l hl
    have hnil : l = [] := List.eq_nil_of_length_eq_zero (Nat.le_zero.mp hl)
    subst hnil
    rfl
  | succ k ih =>
    intro l hl
    cases l with
    | nil => rfl
    | cons c cs =>
      simp only [List.length_cons] at hl
      by_cases hws : isWsC c = true
      · rw [stripUrls_ws c cs hws, hasURL_cons, urlMatchAt_ws c _ hws,
          ih cs (by omega)]
        rfl
      · have hws' : isWsC c = false := by
          cases hcc : isWsC c
          · rfl
          · exact absurd hcc hws
        by_cases hm : urlMatchAt (c :: cs) = true
        · rw [stripUrls_skip c cs hws' hm]
          exact ih _ (le_trans (List.dropWhile_sublist _).length_le (by omega))
        · rw [stripUrls_copy c cs hws' (by simpa using hm), hasURL_cons,
            ih cs (by omega)]
          have hT := List.takeWhile_append_dropWhile
            (fun d => !isWsC d) cs
          have hTn := allNonWs_takeWhile cs
          have hWh := wsHeadedB_dropWhile cs
          obtain ⟨P, Q, hPQ, hsplit⟩ :=
            stripUrls_split (cs.takeWhile fun d => !isWsC d)
              (cs.dropWhile fun d => !isWsC d) hTn hWh
          have hcs : stripUrls cs =
              P ++ stripUrls (cs.dropWhile fun d => !isWsC d) := by
            conv_lhs => rw [← hT]
            exact hsplit
          rw [hcs]
          have e1 : urlMatchAt ((c :: P) ++
              stripUrls (cs.dropWhile fun d => !isWsC d)) =
              urlMatchAt (c :: P) :=
            urlMatchAt_append_ws _ _ (stripUrls_wsHeaded _ hWh)
          cases hcp : urlMatchAt (c :: P) with
          | false =>
            rw [show c :: (P ++ stripUrls (cs.dropWhile fun d => !isWsC d)) =
              (c :: P) ++ stripUrls (cs.dropWhile fun d => !isWsC d) from rfl,
              e1, hcp]
            rfl
          | true =>
            exfalso
            have hx : (c :: P) ++ (Q ++ (cs.dropWhile fun d => !isWsC d)) =
                c :: cs := by
              rw [show (c :: P) ++ (Q ++ (cs.dropWhile fun d => !isWsC d)) =
                c :: (P ++ Q ++ (cs.dropWhile fun d => !isWsC d)) by
                  simp [List.append_assoc]]
              rw [← hPQ, hT]
            have h2 := urlMatchAt_append (c :: P)
              (Q ++ (cs.dropWhile fun d => !isWsC d)) hcp
            rw [hx] at h2
            exact absurd h2 (by simpa using hm)

/-- The output of `stripUrls` has no URL-regex match. -/
theorem hasURL_stripUrls (l : Str) : hasURL (stripUrls l) = false :=
  hasURL_stripUrls_aux l.length l (Nat.le_refl _)

/-- `collapseWs` copies a non-whitespace token unchanged. -/
theorem collapseWs_token (T W : Str) (hT : allNonWs T = true) :
    collapseWs (T ++ W) = T ++ collapseWs W := by
  induction T with
  | nil => rfl
  | cons c T ih =>
    simp only [allNonWs, List.all_cons, Bool.and_eq_true] at hT
    have hcns : isWsC c = false := by
      have := hT.1
      cases hcc : isWsC c
      · rfl
      · rw [hcc] at this; cases this
    rw [List.cons_append, collapseWs_copy c (T ++ W) hcns, ih hT.2,
      List.cons_append]

/-- `collapseWs` preserves being whitespace-headed. -/
theorem collapseWs_wsHeaded (W : Str) (hW : wsHeadedB W = true) :
    wsHeadedB (collapseWs W) = true := by
  cases W with
  | nil => rfl
  | cons w ws =>
    simp only [wsHeadedB] at hW
    rw [collapseWs_ws w ws hW]
    rfl

/-- Collapsing whitespace preserves freedom from URL-regex matches, since
matching only depends on the non-whitespace tokens. -/
theorem hasURL_collapseWs_aux (k : Nat) :
    ∀ l : Str, l.length ≤ k → hasURL l = false →
      hasURL (collapseWs l) = false := by
  induction k with
  | zero =>
    intro l hl h
    have hnil : l = [] := List.eq_nil_of_length_eq_zero (Nat.le_zero.mp hl)
    subst hnil
    rfl
  | succ k ih =>
    intro l hl h
    cases l with
    | nil => rfl
    | cons c cs =>
      simp only [List.length_cons] at hl
      rw [hasURL_cons, Bool.or_eq_false_iff] at h
      by_cases hws : isWsC c = true
      · rw [collapseWs_ws c cs hws, hasURL_cons, urlMatchAt_ws ' ' _ (by decide),
          ih (cs.dropWhile isWsC)
            (le_trans (List.dropWhile_sublist _).length_le (by omega))
            (hasURL_dropWhile isWsC cs h.2)]
        rfl
      · have hws' : isWsC c = false := by
          cases hcc : isWsC c
          · rfl
          · exact absurd hcc hws
        rw [collapseWs_copy c cs hws', hasURL_cons, ih cs (by omega) h.2]
        have hT := List.takeWhile_append_dropWhile (fun d => !isWsC d) cs
        have htok : collapseWs cs =
            (cs.takeWhile fun d => !isWsC d) ++
              collapseWs (cs.dropWhile fun d => !isWsC d) := by
          conv_lhs => rw [← hT]
          exact collapseWs_token _ _ (allNonWs_takeWhile cs)
        rw [htok]
        have head : urlMatchAt (c :: ((cs.takeWhile fun d => !isWsC d) ++
            collapseWs (cs.dropWhile fun d => !isWsC d))) = false := by
          rw [show c :: ((cs.takeWhile fun d => !isWsC d) ++
              collapseWs (cs.dropWhile fun d => !isWsC d)) =
            (c :: (cs.takeWhile fun d => !isWsC d)) ++
              collapseWs (cs.dropWhile fun d => !isWsC d) from rfl]
          rw [urlMatchAt_append_ws _ _
            (collapseWs_wsHeaded _ (wsHeadedB_dropWhile cs))]
          rw [← urlMatchAt_append_ws (c :: (cs.takeWhile fun d => !isWsC d))
            (cs.dropWhile fun d => !isWsC d) (wsHeadedB_dropWhile cs)]
          rw [show (c :: (cs.takeWhile fun d => !isWsC d)) ++
              (cs.dropWhile fun d => !isWsC d) =
            c :: ((cs.takeWhile fun d => !isWsC d) ++
              (cs.dropWhile fun d => !isWsC d)) from rfl]
          rw [hT]
          exact h.1
        rw [head]
        rfl

/-- Collapsing whitespace preserves freedom from URL-regex matches. -/
theorem hasURL_collapseWs (l : Str) (h : hasURL l = false) :
    hasURL (collapseWs l) = false :=
  hasURL_collapseWs_aux l.length l (Nat.le_refl _) h

/-- The `takeWhile` of the whitespace predicate is all whitespace. -/
theorem allWs_takeWhile (l : Str) : allWs (l.takeWhile isWsC) = true := by
  induction l with
  | nil => rfl
  | cons c cs ih =>
    rw [List.takeWhile_cons]
    split
    · rename_i hc
      simp only [allWs, List.all_cons, Bool.and_eq_true]
      exact ⟨hc, ih⟩
    · rfl

/-- An all-whitespace list is whitespace-headed (or empty). -/
theorem allWs_wsHeadedB (l : Str) (h : allWs l = true) : wsHeadedB l = true := by
  cases l with
  | nil => rfl
  | cons c cs =>
    simp only [allWs, List.all_cons, Bool.and_eq_true] at h
    simpa [wsHeadedB] using h.1

/-- Reversal preserves being all whitespace. -/
theorem allWs_reverse (l : Str) (h : allWs l = true) : allWs l.reverse = true := by
  simpa [allWs, List.all_reverse] using h

/-- Trimming preserves freedom from URL-regex matches. -/
theorem hasURL_jsTrim (l : Str) (h : hasURL l = false) :
    hasURL (jsTrim l) = false := by
  have h1 : hasURL (l.dropWhile isWsC) = false := hasURL_dropWhile isWsC l h
  have hsplitM : l.dropWhile isWsC =
      ((l.dropWhile isWsC).reverse.dropWhile isWsC).reverse ++
        ((l.dropWhile isWsC).reverse.takeWhile isWsC).reverse := by
    conv_lhs => rw [← List.reverse_reverse (l.dropWhile isWsC),
      ← List.takeWhile_append_dropWhile isWsC (l.dropWhile isWsC).reverse]
    rw [List.reverse_append]
  have hWt : wsHeadedB ((l.dropWhile isWsC).reverse.takeWhile isWsC).reverse = true :=
    allWs_wsHeadedB _ (allWs_reverse _ (allWs_takeWhile _))
  show hasURL ((l.dropWhile isWsC).reverse.dropWhile isWsC).reverse = false
  exact hasURL_append_ws_cancel _ _ hWt (by rw [← hsplitM]; exact h1)

/-- C7: for every backend reply, the text handed to the speech synthesizer
(`filterUrlsFromText` of the reply: URL matches removed, whitespace runs
collapsed to single spaces, trimmed) contains no token matching the URL
regex — at no position of the result does any of the four regex
alternatives (`http(s)://…`, `www.…`, `domain.tld/path`, `domain.tld…`)
begin a match. -/
theorem claimC7_theorem (reply : Str) :
    hasURL (filterUrlsFromText reply) = false :=
  hasURL_jsTrim _ (hasURL_collapseWs _ (hasURL_stripUrls reply))
